import Mathlib

/-!
Verification of the guitracker price-sync pipeline.

This file gives a shallow embedding of the reconciliation core of the
repository (src/utils/prices.py, src/utils/csv.py, src/utils/log.py,
src/utils/cache.py and the two sync `main`s) and proves the spec's
claims about it.

Modelling conventions, used throughout:
* A Python `datetime.date` is represented by a natural number `Date`
  (only equality and order of dates matter to the code under study).
* A Python `Decimal` is represented by `Dec`: an integer mantissa `num`
  together with a decimal-place count `exp`, denoting the exact value
  `num / 10 ^ exp`.  Python `Decimal` equality is equality of numeric
  values, not of representations; it is embedded by `Dec.eqv`.
* Python dictionaries keyed by the composite price key are represented
  by association lists with `List.lookup`.
-/

set_option maxRecDepth 40000

/-- Exact decimal number: the value `num / 10 ^ exp`.  Embeds Python's
`decimal.Decimal` (a sign-mantissa-exponent triple with exact decimal
semantics). -/
structure Dec where
  num : Int
  exp : Nat
  deriving DecidableEq, Repr

/-- Numeric equality of exact decimals: `a.num / 10^a.exp = b.num / 10^b.exp`,
cross-multiplied.  This is the equality `Decimal.__eq__` uses (so
`Decimal("100.1") == Decimal("100.10")` holds). -/
def Dec.eqv (a b : Dec) : Prop :=
  a.num * 10 ^ b.exp = b.num * 10 ^ a.exp

instance (a b : Dec) : Decidable (Dec.eqv a b) := by
  unfold Dec.eqv; infer_instance

theorem Dec.eqv_refl (a : Dec) : Dec.eqv a a := rfl

/-- Calendar date, abstractly: the code only compares dates. -/
abbrev Date := Nat

/-- `PriceRow` from src/utils/prices.py: one fully keyed desired price
observation. -/
structure PriceRow where
  as_of_date : Date
  asset_id : String
  account_id : String
  quote_currency : String
  price : Dec
  source : String
  deriving DecidableEq, Repr

/-- `Key = Tuple[date, str, str]` from src/utils/prices.py. -/
abbrev PKey := Date × String × String

/-- The composite key `(row.as_of_date, row.asset_id, row.account_id)`
built inside `diff_prices`. -/
def priceKey (r : PriceRow) : PKey :=
  (r.as_of_date, r.asset_id, r.account_id)

/-- `diff_prices` from src/utils/prices.py (the identical copy in
src/yahoo_finance/sync_db.py is this same function): walk the desired
rows in order; a key absent from `existing` is an insert, a present key
with a numerically different price is an update carrying the old price,
otherwise the row only bumps the `unchanged` counter.  The Python loop
appends to `to_insert` / `to_update` in input order; the recursion below
prepends the head row's contribution to the classification of the tail,
which yields the same input-ordered lists. -/
def diff_prices : List PriceRow → List (PKey × Dec) →
    List PriceRow × List (PriceRow × Dec) × Nat
  | [], _ => ([], [], 0)
  | row :: rest, existing =>
    let tail := diff_prices rest existing
    match existing.lookup (priceKey row) with
    | none => (row :: tail.1, tail.2.1, tail.2.2)
    | some old =>
      if ¬ Dec.eqv old row.price then
        (tail.1, (row, old) :: tail.2.1, tail.2.2)
      else
        (tail.1, tail.2.1, tail.2.2 + 1)

/-- Stored columns of one `prices_snapshots` row (besides the key). -/
structure StoredRow where
  quote_currency : String
  price : Dec
  source : String
  deriving DecidableEq, Repr

/-- The persisted `prices_snapshots` table, as a map from composite key
to stored columns. -/
abbrev Store := List (PKey × StoredRow)

/-- Effect on the store of one row of the batched SQL statement in
`upsert_prices` (src/utils/prices.py): `INSERT ... ON CONFLICT (key) DO
UPDATE SET price, quote_currency, source ... WHERE stored price IS
DISTINCT FROM new price OR stored quote_currency IS DISTINCT FROM new
quote_currency`.  Postgres `numeric` comparison is numeric-value
equality, embedded by `Dec.eqv`. -/
def upsert_row (store : Store) (r : PriceRow) : Store :=
  match store.lookup (priceKey r) with
  | none => store ++ [(priceKey r, ⟨r.quote_currency, r.price, r.source⟩)]
  | some cur =>
    if ¬ Dec.eqv cur.price r.price ∨ cur.quote_currency ≠ r.quote_currency then
      store.map (fun e =>
        if e.1 = priceKey r then (e.1, ⟨r.quote_currency, r.price, r.source⟩) else e)
    else store

/-- `upsert_prices` from src/utils/prices.py: `executemany` applies the
upsert statement to each desired row in order. -/
def upsert_prices (store : Store) (rows : List PriceRow) : Store :=
  rows.foldl upsert_row store

/-- `fetch_existing_prices` from src/utils/prices.py: for an empty key
list return `{}` without a store round trip; otherwise the SQL join
returns exactly the stored prices whose composite key is among the
wanted keys. -/
def fetch_existing_prices (store : Store) (keys : List PKey) : List (PKey × Dec) :=
  if keys.isEmpty then []
  else store.filterMap (fun e => if e.1 ∈ keys then some (e.1, e.2.price) else none)

/-- Reference classification rule, following the spec's words (§4.1):
the inserts are the desired rows whose key has no existing price, in
input order. -/
def refToInsert (fetched : List PriceRow) (existing : List (PKey × Dec)) :
    List PriceRow :=
  fetched.filter (fun r => (existing.lookup (priceKey r)).isNone)

/-- Reference rule (spec §4.1): the updates are the desired rows whose
key has an existing price numerically different from the new price,
paired with the previous price, in input order. -/
def refToUpdate (fetched : List PriceRow) (existing : List (PKey × Dec)) :
    List (PriceRow × Dec) :=
  fetched.filterMap (fun r =>
    match existing.lookup (priceKey r) with
    | none => none
    | some old => if ¬ Dec.eqv old r.price then some (r, old) else none)

/-- Reference rule (spec §4.1): the unchanged rows are counted, not
materialized. -/
def refUnchangedCount (fetched : List PriceRow) (existing : List (PKey × Dec)) :
    Nat :=
  fetched.countP (fun r =>
    match existing.lookup (priceKey r) with
    | none => false
    | some old => decide (Dec.eqv old r.price))

/-- Number of distinct composite keys in a desired observation list. -/
def distinctKeyCount (rows : List PriceRow) : Nat :=
  ((rows.map priceKey).dedup).length

/-- Sample observations used to instantiate theorems on concrete data. -/
def rowA : PriceRow :=
  ⟨1, "AAA", "acct1", "USD", ⟨1000, 2⟩, "twelvedata"⟩

/-- A second sample observation with a different composite key. -/
def rowB : PriceRow :=
  ⟨1, "BBB", "acct1", "ARS", ⟨2000, 2⟩, "twelvedata"⟩

/-- A sample pre-existing store holding a different price for `rowB`'s key. -/
def storeB : Store :=
  [(priceKey rowB, ⟨"ARS", ⟨95, 1⟩, "twelvedata"⟩)]

/-! ### Binary64 parsing and shortest-repr printing

`build_price_rows` computes `Decimal(str(r.price))` where `r.price` is the
`float64` produced by `pd.to_numeric` from the CSV price string.  The
next definitions embed that float round trip exactly, for positive
values in the normal binary64 range (the model is stated for values in
`(2^-600, 2^600)`, which covers every representable price):
`floatOfDec` is IEEE-754 round-to-nearest-ties-to-even conversion of an
exact decimal to binary64 (what parsing a numeric string does), and
`shortestReprDec` is `repr`/`str` of a float — the decimal with the
fewest significant digits that parses back to the same float, realized
as the first digit count `d ∈ [1, 17]` whose correctly rounded `d`-digit
decimal round-trips (CPython's shortest-repr guarantee). -/

/-- Number of binary digits of `n` (fuel-driven so that it reduces in
the kernel). -/
def bitlenAux : Nat → Nat → Nat
  | 0, _ => 0
  | fuel + 1, n => if n = 0 then 0 else bitlenAux fuel (n / 2) + 1

/-- Number of decimal digits of `n` (fuel-driven). -/
def digitlenAux : Nat → Nat → Nat
  | 0, _ => 0
  | fuel + 1, n => if n = 0 then 0 else digitlenAux fuel (n / 10) + 1

/-- Nearest integer to the fraction `n / d` (for `d > 0`), ties going to
the even integer — the rounding used both by binary64 arithmetic and by
correctly rounded decimal formatting. -/
def roundRatTiesEven (n d : Int) : Int :=
  let q := Int.ediv n d
  let r := Int.emod n d
  if 2 * r < d then q
  else if 2 * r > d then q + 1
  else if Int.emod q 2 = 0 then q else q + 1

/-- `⌊log₂⌋` of the positive value `d.num / 10^d.exp`, computed through
a `2^600` scaling so that one bit-length count suffices. -/
def floorLog2OfDec (d : Dec) : Int :=
  (bitlenAux 2000 ((d.num * 2 ^ 600 / 10 ^ d.exp).toNat) : Int) - 1 - 600

/-- Round the exact decimal `d` to the nearest binary64, returned as a
normalized pair `(m, e)` with value `m · 2^e` and `2^52 ≤ m < 2^53`.
This is what parsing the decimal string of `d` into a Python/NumPy
float does (string-to-double conversion is correctly rounded). -/
def floatOfDec (d : Dec) : Int × Int :=
  if d.num ≤ 0 then (0, 0) else
  let e : Int := floorLog2OfDec d
  let s : Int := 52 - e
  let n : Int := if 0 ≤ s then d.num * 2 ^ s.toNat else d.num
  let den : Int := if 0 ≤ s then 10 ^ d.exp else 10 ^ d.exp * 2 ^ (-s).toNat
  let m := roundRatTiesEven n den
  if m = 2 ^ 53 then (2 ^ 52, e - 51) else (m, e - 52)

/-- `⌊log₁₀⌋` of the positive float value `m · 2^e`. -/
def floorLog10OfF64 (m : Int) (e : Int) : Int :=
  if 0 ≤ e then (digitlenAux 2000 ((m * 2 ^ e.toNat).toNat) : Int) - 1
  else (digitlenAux 2000 ((m * 10 ^ 200 / 2 ^ (-e).toNat).toNat) : Int) - 1 - 200

/-- The decimal with `d` significant digits nearest to the float value
`m · 2^e` (ties to even): the candidate a correctly rounded `d`-digit
formatting of the float produces. -/
def sigRoundF64 (m : Int) (e : Int) (d : Nat) : Dec :=
  let e10 := floorLog10OfF64 m e
  let s : Int := e10 - d + 1
  let n : Int := m * (if 0 ≤ e then 2 ^ e.toNat else 1) *
    (if s < 0 then 10 ^ (-s).toNat else 1)
  let den : Int := (if e < 0 then 2 ^ (-e).toNat else 1) *
    (if 0 ≤ s then 10 ^ s.toNat else 1)
  let digitsI := roundRatTiesEven n den
  if 0 ≤ s then ⟨digitsI * 10 ^ s.toNat, 0⟩ else ⟨digitsI, (-s).toNat⟩

/-- Exact decimal value of `str(f)` for the float `f = m · 2^e`:
the shortest correctly rounded decimal that parses back to `f`. -/
def shortestReprDec (m : Int) (e : Int) : Dec :=
  match (List.range 17).find? (fun i =>
      decide (floatOfDec (sigRoundF64 m e (i + 1)) = (m, e))) with
  | some i => sigRoundF64 m e (i + 1)
  | none => sigRoundF64 m e 17

/-- The value `Decimal(str(r.price))` computed by `build_price_rows`
(src/utils/csv.py line 65), where `r.price` is the float64 that
`pd.to_numeric` parsed from a CSV price cell whose exact decimal value
is `d`. -/
def csvPriceToDecimal (d : Dec) : Dec :=
  let f := floatOfDec d
  shortestReprDec f.1 f.2

/-! ### CSV validation, deduplication and price-row building
(src/utils/csv.py) -/

/-- Lexicographic (code-point) comparison of character lists; spelled
out structurally so that it evaluates in the kernel.  Agrees with both
Python's `str <` and Lean's `String <`. -/
def charListLt : List Char → List Char → Bool
  | _, [] => false
  | [], _ :: _ => true
  | a :: as, b :: bs =>
    if a.toNat < b.toNat then true
    else if b.toNat < a.toNat then false
    else charListLt as bs

/-- Python's `s1 < s2` on strings. -/
def strLtB (s t : String) : Bool := charListLt s.data t.data

/-- Python's `s.strip() == ""`: true iff every character of `s` is
whitespace. -/
def isBlank (s : String) : Bool := s.data.all Char.isWhitespace

/-- One row of the aggregated CSV, after the coercing parses that
`validate_and_load_csv` applies: `pd.to_datetime(..., errors="coerce")`
yields `none` for an unparseable date and `pd.to_numeric(...,
errors="coerce")` yields `none` for a non-numeric price (NaT/NaN).  A
parsed price cell is carried as the exact decimal value of the cell's
text; the float64 conversion it went through is applied by
`csvPriceToDecimal` where the code converts the float to a `Decimal`. -/
structure RawRow where
  as_of_date : Option Date
  price : Option Dec
  symbol : String
  deriving DecidableEq, Repr

/-- A validated CSV row (all parses succeeded). -/
structure CsvRow where
  as_of_date : Date
  price : Dec
  symbol : String
  deriving DecidableEq, Repr

/-- The aggregated CSV artifact: its column names and its rows. -/
structure CsvTable where
  columns : List String
  rows : List RawRow
  deriving DecidableEq, Repr

/-- The `(symbol, as_of_date)` pair that `sort_values` and
`drop_duplicates` key on. -/
def dedupSymDate (r : CsvRow) : String × Date := (r.symbol, r.as_of_date)

/-- The `(symbol, as_of_date)` lexicographic order used by
`df.sort_values([symbol_column, "as_of_date"])`. -/
def csvLe (a b : CsvRow) : Prop :=
  strLtB a.symbol b.symbol = true ∨
    (a.symbol = b.symbol ∧ a.as_of_date ≤ b.as_of_date)

instance : DecidableRel csvLe := fun a b => by
  unfold csvLe; infer_instance

/-- `df.drop_duplicates(subset=[symbol_column, "as_of_date"],
keep="last")`: keep a row exactly when no later row has the same
`(symbol, date)` pair, preserving row order. -/
def dropDuplicatesKeepLast : List CsvRow → List CsvRow
  | [] => []
  | x :: xs =>
    if xs.any (fun y => decide (dedupSymDate y = dedupSymDate x)) then
      dropDuplicatesKeepLast xs
    else x :: dropDuplicatesKeepLast xs

/-- The parsed rows of the table (the dataframe content after the
coercing date/price parses, as consumed by the sort/dedup step). -/
def parsedRows (t : CsvTable) : List CsvRow :=
  t.rows.filterMap (fun r =>
    match r.as_of_date, r.price with
    | some d, some p => some ⟨d, p, r.symbol⟩
    | _, _ => none)

/-- `validate_and_load_csv` from src/utils/csv.py: abort (SystemExit,
embedded as `Except.error`) when a required column is missing, when any
date failed to parse, when any price is non-numeric or non-positive, or
when any symbol is blank after stripping; otherwise return the rows
sorted by `(symbol, as_of_date)` (pandas multi-column sort is a stable
lexicographic sort) with duplicate `(symbol, date)` pairs collapsed to
the last occurrence. -/
def validate_and_load_csv (t : CsvTable) (symbolColumn : String) :
    Except String (List CsvRow) :=
  if ¬ ("as_of_date" ∈ t.columns ∧ "price" ∈ t.columns ∧
      symbolColumn ∈ t.columns) then
    .error "CSV file is missing required columns"
  else if t.rows.any (fun r => r.as_of_date.isNone) then
    .error "Found invalid as_of_date values in CSV file"
  else if t.rows.any (fun r => r.price.isNone) then
    .error "Found invalid price values in CSV file"
  else if t.rows.any (fun r =>
      match r.price with
      | some p => decide (p.num ≤ 0)
      | none => false) then
    .error "Found non-positive price values in CSV file"
  else if t.rows.any (fun r => isBlank r.symbol) then
    .error "Found invalid symbol values in CSV file"
  else
    .ok (dropDuplicatesKeepLast (List.insertionSort csvLe (parsedRows t)))

/-- Whether an `Except` result is the aborting branch. -/
def isErrorB {α : Type} : Except String α → Bool
  | .error _ => true
  | .ok _ => false

/-- `Asset` from src/utils/assets.py, restricted to the fields
`build_price_rows` reads. -/
structure Asset where
  asset_id : String
  account_id : String
  quote_currency : String
  deriving DecidableEq, Repr

/-- `_SOURCE_MAP.get(symbol_column, "")` from src/utils/csv.py. -/
def sourceMap (symbolColumn : String) : String :=
  if symbolColumn = "yfinance_symbol" then "yahoo_finance"
  else if symbolColumn = "twelvedata_symbol" then "twelvedata"
  else ""

/-- Lexicographic-or-equal order on strings, for `sorted(...)`. -/
def strLe (s t : String) : Prop := strLtB s t = true ∨ s = t

instance : DecidableRel strLe := fun s t => by
  unfold strLe; infer_instance

/-- `sorted(df[symbol_column].dropna().unique().tolist())` as computed
by the sync mains: the distinct symbols of the validated table, sorted
(after validation the column is string-typed, so `dropna` is the
identity). -/
def symbolsOf (df : List CsvRow) : List String :=
  List.insertionSort strLe ((df.map (fun r => r.symbol)).dedup)

/-- `validate_csv_symbols_against_assets` from src/utils/csv.py: abort
iff some CSV symbol has no asset registered under it. -/
def validate_csv_symbols_against_assets (symbols : List String)
    (bySymbol : List (String × Asset)) (symbolColumn : String) :
    Except String Unit :=
  if (symbols.filter (fun s => (bySymbol.lookup s).isNone)).isEmpty then
    .ok ()
  else
    .error (symbolColumn ++ " values in CSV not found in assets.json")

/-- `build_price_rows` from src/utils/csv.py: join each validated CSV
row with the asset registered under its symbol and convert the float
price through `Decimal(str(...))`.  The registry lookup `by_symbol[...]`
raises `KeyError` on a missing symbol; that failure is embedded as
`none`. -/
def build_price_rows (df : List CsvRow) (bySymbol : List (String × Asset))
    (symbolColumn : String) : Option (List PriceRow) :=
  match df with
  | [] => some []
  | r :: rest =>
    match bySymbol.lookup r.symbol with
    | none => none
    | some a =>
      (build_price_rows rest bySymbol symbolColumn).map (fun out =>
        (⟨r.as_of_date, a.asset_id, a.account_id, a.quote_currency,
          csvPriceToDecimal r.price, sourceMap symbolColumn⟩ : PriceRow) :: out)

/-- A sample registry entry. -/
def assetAAA : Asset := ⟨"asset-AAA", "acct1", "USD"⟩

/-- A sample CSV table with a duplicated `(symbol, date)` pair. -/
def tableDup : CsvTable :=
  ⟨["as_of_date", "price", "twelvedata_symbol"],
    [⟨some 2, some ⟨1, 0⟩, "AAA"⟩, ⟨some 1, some ⟨2, 0⟩, "AAA"⟩,
      ⟨some 1, some ⟨3, 0⟩, "AAA"⟩]⟩

/-- The loaded rows of `tableDup`: the duplicate collapsed to the last
occurrence, keys unique. -/
def tableDupOut : List CsvRow :=
  [⟨1, ⟨3, 0⟩, "AAA"⟩, ⟨2, ⟨1, 0⟩, "AAA"⟩]

/-- A sample CSV table containing a row with price `-5`. -/
def tableBad : CsvTable :=
  ⟨["as_of_date", "price", "twelvedata_symbol"],
    [⟨some 1, some ⟨1, 0⟩, "AAA"⟩, ⟨some 1, some ⟨-5, 0⟩, "BBB"⟩]⟩

/-- A sample validated dataframe for the symbol-check witness. -/
def dfAAA : List CsvRow := [⟨1, ⟨10010, 2⟩, "AAA"⟩]

/-! ### Audit logging (src/utils/log.py) -/

/-- One insert/update JSON-lines record built by `log_sync_events`.
Prices are carried as exact decimal values: the code renders them with
`str(Decimal)`, an exact decimal string, never a float.  The wall-clock
`ts` field is the one field not modelled. -/
structure ChangeEvent where
  run_id : String
  action : String
  as_of_date : Date
  asset_id : String
  account_id : String
  quote_currency : String
  old_price : Option Dec
  new_price : Dec
  source : String
  deriving DecidableEq, Repr

/-- The per-run summary record built by `log_sync_events`. -/
structure SummaryEvent where
  run_id : String
  csv_rows : Nat
  existing_matched : Nat
  inserted : Nat
  updated : Nat
  unchanged : Nat
  date_min : Option Date
  date_max : Option Date
  deriving DecidableEq, Repr

/-- A JSON-lines record of the audit log. -/
inductive AuditEvent where
  | change (e : ChangeEvent)
  | summary (s : SummaryEvent)
  deriving DecidableEq, Repr

/-- The insert record for one inserted row: `old_price` is null. -/
def mkInsertEvent (runId : String) (r : PriceRow) : AuditEvent :=
  .change ⟨runId, "insert", r.as_of_date, r.asset_id, r.account_id,
    r.quote_currency, none, r.price, r.source⟩

/-- The update record for one updated row: `old_price` is the previous
price carried by the plan. -/
def mkUpdateEvent (runId : String) (p : PriceRow × Dec) : AuditEvent :=
  .change ⟨runId, "update", p.1.as_of_date, p.1.asset_id, p.1.account_id,
    p.1.quote_currency, some p.2, p.1.price, p.1.source⟩

/-- Recognizer for summary records. -/
def isSummaryEvent : AuditEvent → Bool
  | .summary _ => true
  | .change _ => false

/-- `log_sync_events` from src/utils/log.py: the list of JSON-lines
records that one run appends via `write_jsonl` (one line per record, in
list order) — one insert record per planned insert, one update record
per planned update, then exactly one summary with the row count of the
validated dataframe, the matched-existing count, the three plan counts,
and the min/max `as_of_date` of the dataframe (`none` for an empty
frame, where pandas `min()`/`max()` give NaN). -/
def log_sync_events (runId : String) (to_insert : List PriceRow)
    (to_update : List (PriceRow × Dec)) (unchanged : Nat)
    (df : List CsvRow) (existingMatched : Nat) : List AuditEvent :=
  (to_insert.map (mkInsertEvent runId)) ++
    (to_update.map (mkUpdateEvent runId)) ++
    [.summary ⟨runId, df.length, existingMatched, to_insert.length,
      to_update.length, unchanged,
      (df.map (fun r => r.as_of_date)).min?,
      (df.map (fun r => r.as_of_date)).max?⟩]

/-! ### Sequencing of the sync stage (src/twelvedata/sync.py `main`,
src/yahoo_finance/sync_db.py `main`) -/

/-- The effectful steps inside the `try` block of both sync `main`s, in
program order. -/
inductive RunStep where
  | fetchExisting
  | planDiff
  | writeAuditLog
  | upsertRows
  | commitTxn
  deriving DecidableEq, Repr

/-- Program order of the sync stage: read existing prices, compute the
plan, write the audit log, upsert, commit. -/
def syncSteps : List RunStep :=
  [.fetchExisting, .planDiff, .writeAuditLog, .upsertRows, .commitTxn]

/-- Outcome of one run: which steps executed successfully (in order),
and the process exit code. -/
structure RunOutcome where
  trace : List RunStep
  exitCode : Nat
  deriving DecidableEq, Repr

/-- Executor for the `try/except Exception` structure of `main`: steps
run sequentially; a step that raises (`ok s = false`) stops execution —
the later steps, the commit included, never run (the psycopg connection
context also rolls back on the exception) and the handler calls
`sys.exit(1)`; if every step succeeds the exit code is 0. -/
def runSyncAux (ok : RunStep → Bool) : List RunStep → RunOutcome
  | [] => ⟨[], 0⟩
  | s :: rest =>
    if ok s then
      let r := runSyncAux ok rest
      ⟨s :: r.trace, r.exitCode⟩
    else ⟨[], 1⟩

/-- One run of the sync stage, given which steps succeed. -/
def runSync (ok : RunStep → Bool) : RunOutcome :=
  runSyncAux ok syncSteps

/-- Failure oracle for the witness: the audit-log write raises. -/
def logWriteFails : RunStep → Bool
  | .writeAuditLog => false
  | _ => true

/-! ### Response cache paths (src/utils/cache.py) -/

/-- A parameter value of the `parts` mapping as `norm` sees it: Python
`None`, or any other value represented by its `str` rendering. -/
abbrev CacheValue := Option String

/-- `norm` from `generate_cache_path`: `None` becomes `"none"`, any
other value its `str`. -/
def normValue : CacheValue → String
  | none => "none"
  | some s => s

/-- Character step of `_safe_token`: `/` and `.` become `_`. -/
def safeChar (c : Char) : Char :=
  if c = '/' then '_' else if c = '.' then '_' else c

/-- `_safe_token` from src/utils/cache.py: replace `/` and `.` by `_`
(replacing single-character substrings is a per-character map). -/
def safeToken (s : String) : String := ⟨s.data.map safeChar⟩

/-- Python's `sep.join(segments)`. -/
def joinSep (sep : String) : List String → String
  | [] => ""
  | [s] => s
  | s :: rest => s ++ sep ++ joinSep sep rest

/-- The `sorted(parts.keys())` iteration order, lifted to the key-value
pairs of the mapping. -/
def pairLe (p q : String × CacheValue) : Prop := strLe p.1 q.1

instance : DecidableRel pairLe := fun p q => by
  unfold pairLe; infer_instance

/-- `generate_cache_path` from src/utils/cache.py: iterate the mapping
in sorted key order, build a `key-value` segment per parameter from the
safe tokens of the key and the normalized value, join the segments with
`__` after the safe prefix, and append the extension.  The mapping is
represented by an association list with distinct keys; the constant
`base_dir` directory that the source prepends is not part of the
returned name. -/
def generate_cache_path (prefixStr : String)
    (parts : List (String × CacheValue)) (ext : String) : String :=
  let items := List.insertionSort pairLe parts
  let segments := items.map (fun kv =>
    safeToken kv.1 ++ "-" ++ safeToken (normValue kv.2))
  let name :=
    if segments.isEmpty then safeToken prefixStr
    else safeToken prefixStr ++ "__" ++ joinSep "__" segments
  name ++ "." ++ ext

/-- Change the value stored under key `k` of the mapping, leaving every
other parameter unchanged. -/
def setParamValue (parts : List (String × CacheValue)) (k : String)
    (v' : CacheValue) : List (String × CacheValue) :=
  parts.map (fun p => if p.1 = k then (k, v') else p)

lemma diff_prices_eq_ref (fetched : List PriceRow) (existing : List (PKey × Dec)) :
    diff_prices fetched existing =
      (refToInsert fetched existing, refToUpdate fetched existing,
        refUnchangedCount fetched existing) := by
  induction fetched with
  | nil => rfl
  | cons row rest ih =>
    simp only [diff_prices, ih, refToInsert, refToUpdate, refUnchangedCount,
      List.filter_cons, List.filterMap_cons, List.countP_cons]
    cases h : (existing.lookup (priceKey row)) with
    | none => simp [h]
    | some old =>
      by_cases hp : Dec.eqv old row.price
      · simp [h, hp]
      · simp [h, hp]

lemma diff_prices_sum (fetched : List PriceRow) (existing : List (PKey × Dec)) :
    (diff_prices fetched existing).1.length +
      (diff_prices fetched existing).2.1.length +
      (diff_prices fetched existing).2.2 = fetched.length := by
  induction fetched with
  | nil => rfl
  | cons row rest ih =>
    simp only [diff_prices]
    cases h : (existing.lookup (priceKey row)) with
    | none => simpa [h] using by omega
    | some old =>
      by_cases hp : Dec.eqv old row.price
      · simp only [h, hp, not_true_eq_false, if_false, List.length_cons]
        omega
      · simp only [h, hp, not_false_eq_true, if_true, List.length_cons]
        omega

lemma mem_toInsert_lookup {fetched existing} {r : PriceRow}
    (h : r ∈ (diff_prices fetched existing).1) :
    (existing.lookup (priceKey r)).isNone := by
  rw [diff_prices_eq_ref] at h
  simpa using (List.of_mem_filter h)

lemma mem_toUpdate_lookup {fetched existing} {r : PriceRow} {old : Dec}
    (h : (r, old) ∈ (diff_prices fetched existing).2.1) :
    existing.lookup (priceKey r) = some old := by
  rw [diff_prices_eq_ref] at h
  obtain ⟨a, _, ha⟩ := List.mem_filterMap.mp h
  cases hl : (existing.lookup (priceKey a)) with
  | none => simp [hl] at ha
  | some o =>
    simp only [hl] at ha
    by_cases hp : Dec.eqv o a.price
    · simp [hp] at ha
    · simp only [hp, not_false_eq_true, if_true, Option.some.injEq] at ha
      obtain ⟨rfl, rfl⟩ := Prod.mk.injEq .. ▸ ha
      exact hl

lemma diff_prices_all_unchanged (existing : List (PKey × Dec)) :
    ∀ l : List PriceRow,
      (∀ r ∈ l, existing.lookup (priceKey r) = some r.price) →
      diff_prices l existing = ([], [], l.length) := by
  intro l
  induction l with
  | nil => intro _; rfl
  | cons row rest ih =>
    intro h
    have hhead := h row (by simp)
    have htail := ih (fun r hr => h r (by simp [hr]))
    simp only [diff_prices, htail, hhead, Dec.eqv_refl, not_true_eq_false,
      if_false, List.length_cons]

/-- C1 (counterexample): as stated over *every* list of desired
observations the size identity fails: a desired list that repeats one
observation yields two inserts, while it has a single distinct key. -/
theorem c1_counterexample :
    ¬ ((diff_prices [rowA, rowA] []).1.length +
        (diff_prices [rowA, rowA] []).2.1.length +
        (diff_prices [rowA, rowA] []).2.2 = distinctKeyCount [rowA, rowA]) := by
  decide

/-- C1 (amended): for every desired list whose composite keys are
pairwise distinct and every existing-price map, each key is classified
into exactly one class: `|to_insert| + |to_update| + unchanged` equals
the number of distinct keys of the desired list, and no key occurs both
as an insert and as an update. -/
theorem c1_partition (fetched : List PriceRow) (existing : List (PKey × Dec))
    (h : (fetched.map priceKey).Nodup) :
    ((diff_prices fetched existing).1.length +
      (diff_prices fetched existing).2.1.length +
      (diff_prices fetched existing).2.2 = distinctKeyCount fetched) ∧
    ∀ k : PKey,
      ¬ (k ∈ (diff_prices fetched existing).1.map priceKey ∧
          k ∈ (diff_prices fetched existing).2.1.map (fun p => priceKey p.1)) := by
  constructor
  · rw [diff_prices_sum]
    unfold distinctKeyCount
    rw [h.dedup, List.length_map]
  · rintro k ⟨hins, hupd⟩
    obtain ⟨r, hr, rfl⟩ := List.mem_map.mp hins
    obtain ⟨p, hp, hkey⟩ := List.mem_map.mp hupd
    have h1 := mem_toInsert_lookup hr
    have h2 := @mem_toUpdate_lookup _ _ p.1 p.2 (by simpa using hp)
    rw [hkey] at h2
    rw [h2] at h1
    simp at h1

theorem c1_partition_witness :
    (diff_prices [rowA, rowB] (fetch_existing_prices storeB
        ([rowA, rowB].map priceKey))).1.length +
      (diff_prices [rowA, rowB] (fetch_existing_prices storeB
        ([rowA, rowB].map priceKey))).2.1.length +
      (diff_prices [rowA, rowB] (fetch_existing_prices storeB
        ([rowA, rowB].map priceKey))).2.2 = distinctKeyCount [rowA, rowB] :=
  (c1_partition [rowA, rowB]
    (fetch_existing_prices storeB ([rowA, rowB].map priceKey)) (by decide)).1

/-- C2: write-then-rediff is a no-op.  If after running `upsert_prices`
with the desired list the store (read back through
`fetch_existing_prices` restricted to the desired keys) maps each
desired key to that observation's price, then recomputing the plan with
the same desired list yields no inserts, no updates, and `|D|` unchanged
rows. -/
theorem c2_write_then_rediff (store : Store) (desired : List PriceRow)
    (h : ∀ r ∈ desired,
      (fetch_existing_prices (upsert_prices store desired)
          (desired.map priceKey)).lookup (priceKey r) = some r.price) :
    diff_prices desired
        (fetch_existing_prices (upsert_prices store desired)
          (desired.map priceKey)) = ([], [], desired.length) :=
  diff_prices_all_unchanged _ desired h

theorem c2_write_then_rediff_witness :
    diff_prices [rowA, rowB]
        (fetch_existing_prices (upsert_prices storeB [rowA, rowB])
          ([rowA, rowB].map priceKey)) = ([], [], [rowA, rowB].length) :=
  c2_write_then_rediff storeB [rowA, rowB] (by decide)

/-- C3: `diff_prices` classifies exactly by the reference rule — absent
key ⇒ insert, present key with numerically different price ⇒ update
carrying the previous price, present key with equal price ⇒ counted as
unchanged and not materialized — and `to_insert` / `to_update` keep the
input observation order (they are a filter / filterMap of the input
list). -/
theorem c3_classification_rule (fetched : List PriceRow)
    (existing : List (PKey × Dec)) :
    diff_prices fetched existing =
      (refToInsert fetched existing, refToUpdate fetched existing,
        refUnchangedCount fetched existing) :=
  diff_prices_eq_ref fetched existing

lemma dropDuplicatesKeepLast_sublist (l : List CsvRow) :
    List.Sublist (dropDuplicatesKeepLast l) l := by
  induction l with
  | nil => simp [dropDuplicatesKeepLast]
  | cons x xs ih =>
    by_cases h : (xs.any fun y => decide (dedupSymDate y = dedupSymDate x)) = true
    · rw [dropDuplicatesKeepLast, if_pos h]
      exact ih.trans (List.sublist_cons_self x xs)
    · rw [dropDuplicatesKeepLast, if_neg h]
      exact ih.cons₂ x

lemma dropDuplicatesKeepLast_nodup (l : List CsvRow) :
    ((dropDuplicatesKeepLast l).map dedupSymDate).Nodup := by
  induction l with
  | nil => simp [dropDuplicatesKeepLast]
  | cons x xs ih =>
    by_cases h : (xs.any fun y => decide (dedupSymDate y = dedupSymDate x)) = true
    · rw [dropDuplicatesKeepLast, if_pos h]
      exact ih
    · rw [dropDuplicatesKeepLast, if_neg h]
      simp only [List.map_cons, List.nodup_cons]
      refine ⟨fun hmem => ?_, ih⟩
      obtain ⟨y, hy, hkey⟩ := List.mem_map.mp hmem
      exact h (List.any_eq_true.mpr
        ⟨y, (dropDuplicatesKeepLast_sublist xs).subset hy, by simp [hkey]⟩)

lemma dropDuplicatesKeepLast_last_occurrence (l : List CsvRow) :
    ∀ r ∈ dropDuplicatesKeepLast l, ∃ pre post, l = pre ++ r :: post ∧
      ∀ y ∈ post, dedupSymDate y ≠ dedupSymDate r := by
  induction l with
  | nil => simp [dropDuplicatesKeepLast]
  | cons x xs ih =>
    intro r hr
    by_cases h : (xs.any fun y => decide (dedupSymDate y = dedupSymDate x)) = true
    · rw [dropDuplicatesKeepLast, if_pos h] at hr
      obtain ⟨pre, post, heq, hpost⟩ := ih r hr
      exact ⟨x :: pre, post, by simp [heq], hpost⟩
    · rw [dropDuplicatesKeepLast, if_neg h] at hr
      rcases List.mem_cons.mp hr with rfl | hr'
      · refine ⟨[], xs, rfl, fun y hy hkey => ?_⟩
        exact h (List.any_eq_true.mpr ⟨y, hy, by simp [hkey]⟩)
      · obtain ⟨pre, post, heq, hpost⟩ := ih r hr'
        exact ⟨x :: pre, post, by simp [heq], hpost⟩

lemma dropDuplicatesKeepLast_covers (l : List CsvRow) :
    ∀ y ∈ l, ∃ r ∈ dropDuplicatesKeepLast l, dedupSymDate r = dedupSymDate y := by
  induction l with
  | nil => simp
  | cons x xs ih =>
    intro y hy
    by_cases h : (xs.any fun z => decide (dedupSymDate z = dedupSymDate x)) = true
    · rw [dropDuplicatesKeepLast, if_pos h]
      rcases List.mem_cons.mp hy with rfl | hy'
      · obtain ⟨z, hz, hkz⟩ := List.any_eq_true.mp h
        obtain ⟨r, hr, hkr⟩ := ih z hz
        exact ⟨r, hr, hkr.trans (by simpa using hkz)⟩
      · exact ih y hy'
    · rw [dropDuplicatesKeepLast, if_neg h]
      rcases List.mem_cons.mp hy with rfl | hy'
      · exact ⟨y, List.mem_cons_self _ _, rfl⟩
      · obtain ⟨r, hr, hkr⟩ := ih y hy'
        exact ⟨r, List.mem_cons_of_mem _ hr, hkr⟩

lemma validate_ok_eq {t : CsvTable} {c : String} {out : List CsvRow}
    (h : validate_and_load_csv t c = .ok out) :
    out = dropDuplicatesKeepLast (List.insertionSort csvLe (parsedRows t)) := by
  unfold validate_and_load_csv at h
  repeat' split at h
  all_goals simp_all

lemma validate_ok_good {t : CsvTable} {c : String} {out : List CsvRow}
    (h : validate_and_load_csv t c = .ok out) :
    ∀ r ∈ t.rows, r.as_of_date.isSome ∧
      (∃ p, r.price = some p ∧ 0 < p.num) ∧ isBlank r.symbol = false := by
  unfold validate_and_load_csv at h
  repeat' split at h
  all_goals try (cases h)
  next h1 h2 h3 h4 h5 =>
    intro r hr
    simp only [List.any_eq_true, not_exists, not_and] at h2 h3 h4 h5
    refine ⟨?_, ?_, ?_⟩
    · have := h2 r hr
      cases hd : r.as_of_date with
      | none => exact absurd (by simp [hd]) this
      | some d => simp
    · have hp := h3 r hr
      cases hq : r.price with
      | none => exact absurd (by simp [hq]) hp
      | some p =>
        refine ⟨p, rfl, ?_⟩
        have := h4 r hr
        simp only [hq, decide_eq_true_eq] at this
        omega
    · have := h5 r hr
      simpa using this

/-- C7: every table accepted by `validate_and_load_csv` has at most one
row per `(symbol, as_of_date)` pair; each returned row is the last
occurrence of its pair in `(symbol, date)` sort order; and no pair
occurring in the parsed input is lost.  Consequently the composite keys
presented to reconciliation are unique. -/
theorem c7_dedup_unique (t : CsvTable) (c : String) (out : List CsvRow)
    (h : validate_and_load_csv t c = .ok out) :
    (out.map dedupSymDate).Nodup ∧
    (∀ r ∈ out, ∃ pre post,
        List.insertionSort csvLe (parsedRows t) = pre ++ r :: post ∧
        ∀ y ∈ post, dedupSymDate y ≠ dedupSymDate r) ∧
    (∀ y ∈ parsedRows t, ∃ r ∈ out, dedupSymDate r = dedupSymDate y) := by
  have hout := validate_ok_eq h
  subst hout
  refine ⟨dropDuplicatesKeepLast_nodup _,
    dropDuplicatesKeepLast_last_occurrence _, fun y hy => ?_⟩
  exact dropDuplicatesKeepLast_covers _ y
    ((List.perm_insertionSort csvLe (parsedRows t)).mem_iff.mpr hy)

theorem c7_dedup_unique_witness :
    (tableDupOut.map dedupSymDate).Nodup :=
  (c7_dedup_unique tableDup "twelvedata_symbol" tableDupOut (by rfl)).1

/-- C8: `validate_and_load_csv` aborts whenever some row has an
unparseable date, a non-numeric or non-positive price, or a blank
symbol; and a table it accepts contained no such row (nothing was
silently dropped). -/
theorem c8_abort_on_bad_rows (t : CsvTable) (c : String) :
    (∀ out, validate_and_load_csv t c = .ok out →
      ∀ r ∈ t.rows, r.as_of_date.isSome ∧
        (∃ p, r.price = some p ∧ 0 < p.num) ∧ isBlank r.symbol = false) ∧
    ((∃ r ∈ t.rows, r.as_of_date = none ∨ r.price = none ∨
        (∃ p, r.price = some p ∧ p.num ≤ 0) ∨ isBlank r.symbol = true) →
      isErrorB (validate_and_load_csv t c) = true) := by
  refine ⟨fun out h => validate_ok_good h, fun hbad => ?_⟩
  cases hv : validate_and_load_csv t c with
  | error e => rfl
  | ok out =>
    exfalso
    obtain ⟨r, hr, hcase⟩ := hbad
    obtain ⟨hdate, ⟨p, hp, hpos⟩, hblank⟩ := validate_ok_good hv r hr
    rcases hcase with hc | hc | ⟨q, hq, hqn⟩ | hc
    · rw [hc] at hdate; cases hdate
    · rw [hc] at hp; cases hp
    · rw [hq] at hp; injection hp with hp'; subst hp'; omega
    · rw [hc] at hblank; cases hblank

theorem c8_abort_on_bad_rows_witness :
    isErrorB (validate_and_load_csv tableBad "twelvedata_symbol") = true :=
  (c8_abort_on_bad_rows tableBad "twelvedata_symbol").2
    ⟨⟨some 1, some ⟨-5, 0⟩, "BBB"⟩, by decide,
      Or.inr (Or.inr (Or.inl ⟨⟨-5, 0⟩, rfl, by decide⟩))⟩

lemma build_price_rows_isSome (bySymbol : List (String × Asset)) (c : String) :
    ∀ df : List CsvRow, (∀ r ∈ df, (bySymbol.lookup r.symbol).isSome) →
      (build_price_rows df bySymbol c).isSome := by
  intro df
  induction df with
  | nil => intro _; rfl
  | cons r rest ih =>
    intro h
    obtain ⟨a, ha⟩ := Option.isSome_iff_exists.mp (h r (by simp))
    obtain ⟨out, hout⟩ :=
      Option.isSome_iff_exists.mp (ih (fun x hx => h x (by simp [hx])))
    rw [build_price_rows, ha, hout]
    rfl

/-- C10: if the symbol check `validate_csv_symbols_against_assets`
returned normally for the symbols of the validated table, then every
registry lookup done by `build_price_rows` on that table succeeds — the
`KeyError` branch is unreachable and the builder is total. -/
theorem c10_build_price_rows_total (df : List CsvRow)
    (bySymbol : List (String × Asset)) (c : String)
    (h : validate_csv_symbols_against_assets (symbolsOf df) bySymbol c = .ok ()) :
    (build_price_rows df bySymbol c).isSome := by
  apply build_price_rows_isSome
  intro r hr
  have hsym : r.symbol ∈ symbolsOf df := by
    unfold symbolsOf
    rw [(List.perm_insertionSort strLe _).mem_iff]
    exact List.mem_dedup.mpr (List.mem_map_of_mem _ hr)
  unfold validate_csv_symbols_against_assets at h
  split at h
  · next hemp =>
    rw [List.isEmpty_iff, List.filter_eq_nil_iff] at hemp
    have := hemp r.symbol hsym
    cases hl : bySymbol.lookup r.symbol with
    | none => exact absurd (by simp [hl]) this
    | some a => rfl
  · cases h

theorem c10_build_price_rows_total_witness :
    (build_price_rows dfAAA [("AAA", assetAAA)] "twelvedata_symbol").isSome :=
  c10_build_price_rows_total dfAAA [("AAA", assetAAA)] "twelvedata_symbol"
    (by rfl)

/-- C4 (counterexample): the fetched price *is* passed through binary
floating point.  For the CSV price string `0.1000000000000000001` the
float64 parse rounds to the double nearest `0.1`, whose `str` is
`"0.1"`, so the `Decimal` carried by the built `PriceRow` is `0.1`,
numerically different from the exact decimal value of the string:
`build_price_rows` does not preserve the exact decimal value of every
CSV price string. -/
theorem c4_counterexample :
    build_price_rows [⟨1, ⟨1000000000000000001, 19⟩, "AAA"⟩]
        [("AAA", assetAAA)] "twelvedata_symbol" =
      some [⟨1, "asset-AAA", "acct1", "USD", ⟨1, 1⟩, "twelvedata"⟩] ∧
    ¬ Dec.eqv ⟨1, 1⟩ ⟨1000000000000000001, 19⟩ := by
  constructor
  · rfl
  · decide

/-- C4 (amended): classification compares exact decimal values on both
sides, and the spec's `100.10` scenario is safe in spite of the float64
round trip: the CSV string `100.10` parses to a float64 whose shortest
repr is `100.1`, the built `Decimal` is numerically equal to the stored
exact `100.10`, and `diff_prices` classifies the row as unchanged — not
as an UPDATE. -/
theorem c4_decimal_equality :
    Dec.eqv (csvPriceToDecimal ⟨10010, 2⟩) ⟨10010, 2⟩ ∧
    diff_prices
        [⟨1, "AAA", "acct1", "USD", csvPriceToDecimal ⟨10010, 2⟩, "twelvedata"⟩]
        [((1, "AAA", "acct1"), ⟨10010, 2⟩)] = ([], [], 1) := by
  constructor
  · decide
  · rfl

/-- C5: for every reconciliation plan and run metadata the audit logger
emits exactly `|to_insert| + |to_update| + 1` records: a record per
insert with `old_price = null` and `new_price` the (decimal-rendered)
new price, a record per update with `old_price` the previous price and
`new_price` the new price, and exactly one summary record carrying the
total row count, the matched-existing count, the three plan counts, and
the minimum and maximum date of the batch. -/
theorem c5_audit_log_contract (runId : String) (to_insert : List PriceRow)
    (to_update : List (PriceRow × Dec)) (unchanged : Nat)
    (df : List CsvRow) (matched : Nat) :
    (log_sync_events runId to_insert to_update unchanged df matched).length =
      to_insert.length + to_update.length + 1 ∧
    (∀ r ∈ to_insert,
      AuditEvent.change ⟨runId, "insert", r.as_of_date, r.asset_id,
          r.account_id, r.quote_currency, none, r.price, r.source⟩ ∈
        log_sync_events runId to_insert to_update unchanged df matched) ∧
    (∀ p ∈ to_update,
      AuditEvent.change ⟨runId, "update", p.1.as_of_date, p.1.asset_id,
          p.1.account_id, p.1.quote_currency, some p.2, p.1.price,
          p.1.source⟩ ∈
        log_sync_events runId to_insert to_update unchanged df matched) ∧
    (log_sync_events runId to_insert to_update unchanged df
        matched).filter isSummaryEvent =
      [.summary ⟨runId, df.length, matched, to_insert.length,
        to_update.length, unchanged,
        (df.map (fun r => r.as_of_date)).min?,
        (df.map (fun r => r.as_of_date)).max?⟩] := by
  refine ⟨?_, ?_, ?_, ?_⟩
  · simp [log_sync_events]
    omega
  · intro r hr
    simp only [log_sync_events, List.mem_append]
    exact Or.inl (Or.inl (List.mem_map.mpr ⟨r, hr, rfl⟩))
  · intro p hp
    simp only [log_sync_events, List.mem_append]
    exact Or.inl (Or.inr (List.mem_map.mpr ⟨p, hp, rfl⟩))
  · have hf1 : List.filter (isSummaryEvent ∘ mkInsertEvent runId) to_insert
        = [] := by
      apply List.filter_eq_nil_iff.mpr
      intro a _
      simp [Function.comp, mkInsertEvent, isSummaryEvent]
    have hf2 : List.filter (isSummaryEvent ∘ mkUpdateEvent runId) to_update
        = [] := by
      apply List.filter_eq_nil_iff.mpr
      intro a _
      simp [Function.comp, mkUpdateEvent, isSummaryEvent]
    simp [log_sync_events, List.filter_append, List.filter_map, hf1, hf2,
      isSummaryEvent]

theorem c5_audit_log_contract_witness :
    AuditEvent.change ⟨"run1", "insert", rowA.as_of_date, rowA.asset_id,
        rowA.account_id, rowA.quote_currency, none, rowA.price,
        rowA.source⟩ ∈
      log_sync_events "run1" [rowA] [(rowB, ⟨95, 1⟩)] 0 dfAAA 1 :=
  (c5_audit_log_contract "run1" [rowA] [(rowB, ⟨95, 1⟩)] 0 dfAAA 1).2.1
    rowA (by decide)

/-- C6: in every run of the sync stage the audit-log write is sequenced
strictly before the store commit; if the audit-log write raises, the
commit never executes and the run exits non-zero; and there is no
reachable outcome in which the commit ran but the audit-log write
failed. -/
theorem c6_log_before_commit (ok : RunStep → Bool) :
    (RunStep.commitTxn ∈ (runSync ok).trace →
      ok RunStep.writeAuditLog = true ∧
      (runSync ok).trace.indexOf RunStep.writeAuditLog <
        (runSync ok).trace.indexOf RunStep.commitTxn) ∧
    (ok RunStep.writeAuditLog = false →
      RunStep.commitTxn ∉ (runSync ok).trace ∧
      (runSync ok).exitCode = 1) := by
  cases h1 : ok .fetchExisting <;> cases h2 : ok .planDiff <;>
    cases h3 : ok .writeAuditLog <;> cases h4 : ok .upsertRows <;>
    cases h5 : ok .commitTxn <;>
    simp only [runSync, runSyncAux, syncSteps, h1, h2, h3, h4, h5,
      if_true, if_false] <;>
    constructor <;> intro hh <;> first | (exact absurd hh (by decide)) | decide

theorem c6_log_before_commit_witness :
    RunStep.commitTxn ∉ (runSync logWriteFails).trace ∧
      (runSync logWriteFails).exitCode = 1 :=
  (c6_log_before_commit logWriteFails).2 rfl

lemma charListLt_asymm : ∀ as bs : List Char,
    charListLt as bs = true → charListLt bs as = true → False := by
  intro as
  induction as with
  | nil =>
    intro bs h1 h2
    cases bs with
    | nil => simp [charListLt] at h1
    | cons b bs' => simp [charListLt] at h2
  | cons a as' ih =>
    intro bs h1 h2
    cases bs with
    | nil => simp [charListLt] at h1
    | cons b bs' =>
      simp only [charListLt] at h1 h2
      by_cases hab : a.toNat < b.toNat
      · by_cases hba : b.toNat < a.toNat
        · omega
        · rw [if_neg hba, if_pos hab] at h2
          cases h2
      · rw [if_neg hab] at h1
        by_cases hba : b.toNat < a.toNat
        · rw [if_pos hba] at h1
          cases h1
        · rw [if_neg hba] at h1
          rw [if_neg hba, if_neg hab] at h2
          exact ih bs' h1 h2

lemma charListLt_trans : ∀ as bs cs : List Char,
    charListLt as bs = true → charListLt bs cs = true →
    charListLt as cs = true := by
  intro as
  induction as with
  | nil =>
    intro bs cs h1 h2
    cases bs with
    | nil => simp [charListLt] at h1
    | cons b bs' =>
      cases cs with
      | nil => simp [charListLt] at h2
      | cons c cs' => rfl
  | cons a as' ih =>
    intro bs cs h1 h2
    cases bs with
    | nil => simp [charListLt] at h1
    | cons b bs' =>
      cases cs with
      | nil => simp [charListLt] at h2
      | cons c cs' =>
        simp only [charListLt] at h1 h2 ⊢
        by_cases hab : a.toNat < b.toNat
        · by_cases hbc : b.toNat < c.toNat
          · rw [if_pos (by omega : a.toNat < c.toNat)]
          · by_cases hcb : c.toNat < b.toNat
            · rw [if_neg hbc, if_pos hcb] at h2
              cases h2
            · rw [if_pos (by omega : a.toNat < c.toNat)]
        · by_cases hba : b.toNat < a.toNat
          · rw [if_neg hab, if_pos hba] at h1
            cases h1
          · rw [if_neg hab, if_neg hba] at h1
            by_cases hbc : b.toNat < c.toNat
            · rw [if_pos (by omega : a.toNat < c.toNat)]
            · by_cases hcb : c.toNat < b.toNat
              · rw [if_neg hbc, if_pos hcb] at h2
                cases h2
              · rw [if_neg hbc, if_neg hcb] at h2
                rw [if_neg (by omega : ¬ a.toNat < c.toNat),
                  if_neg (by omega : ¬ c.toNat < a.toNat)]
                exact ih bs' cs' h1 h2

lemma charListLt_total : ∀ as bs : List Char,
    charListLt as bs = true ∨ charListLt bs as = true ∨ as = bs := by
  intro as
  induction as with
  | nil =>
    intro bs
    cases bs with
    | nil => right; right; rfl
    | cons b bs' => left; rfl
  | cons a as' ih =>
    intro bs
    cases bs with
    | nil => right; left; rfl
    | cons b bs' =>
      by_cases hab : a.toNat < b.toNat
      · left; simp [charListLt, hab]
      · by_cases hba : b.toNat < a.toNat
        · right; left; simp [charListLt, hba]
        · have hEq : a = b := by
            have h' : a.toNat = b.toNat := by omega
            exact Char.ext (UInt32.toNat.inj h')
          rcases ih bs' with h | h | h
          · left; simp [charListLt, hab, hba, h]
          · right; left; simp [charListLt, hab, hba, h]
          · right; right; rw [hEq, h]

lemma strLtB_asymm {s t : String} (h1 : strLtB s t = true)
    (h2 : strLtB t s = true) : False :=
  charListLt_asymm s.data t.data h1 h2

lemma strLe_total (s t : String) : strLe s t ∨ strLe t s := by
  unfold strLe strLtB
  rcases charListLt_total s.data t.data with h | h | h
  · exact Or.inl (Or.inl h)
  · exact Or.inr (Or.inl h)
  · exact Or.inl (Or.inr (String.ext h))

lemma strLe_trans {s t u : String} (h1 : strLe s t) (h2 : strLe t u) :
    strLe s u := by
  rcases h1 with h1 | h1
  · rcases h2 with h2 | h2
    · exact Or.inl (charListLt_trans s.data t.data u.data h1 h2)
    · exact h2 ▸ Or.inl h1
  · exact h1 ▸ h2

instance : IsTotal (String × CacheValue) pairLe :=
  ⟨fun p q => strLe_total p.1 q.1⟩

instance : IsTrans (String × CacheValue) pairLe :=
  ⟨fun _ _ _ h1 h2 => strLe_trans h1 h2⟩

lemma pairLe_antisymm_fst {p q : String × CacheValue}
    (h1 : pairLe p q) (h2 : pairLe q p) : p.1 = q.1 := by
  rcases h1 with h1 | h1
  · rcases h2 with h2 | h2
    · exact (strLtB_asymm h1 h2).elim
    · exact h2.symm
  · exact h1

lemma sorted_perm_eq : ∀ l₁ l₂ : List (String × CacheValue),
    l₁.Perm l₂ → l₁.Sorted pairLe → l₂.Sorted pairLe →
    (l₁.map Prod.fst).Nodup → l₁ = l₂ := by
  intro l₁
  induction l₁ with
  | nil =>
    intro l₂ hp _ _ _
    exact (hp.symm.eq_nil).symm
  | cons x xs ih =>
    intro l₂ hp hs₁ hs₂ hn
    cases l₂ with
    | nil => exact absurd hp.eq_nil (by simp)
    | cons y ys =>
      have hxy : x = y := by
        have hx2 : x ∈ y :: ys := hp.subset (by simp)
        have hy1 : y ∈ x :: xs := hp.symm.subset (by simp)
        rcases List.mem_cons.mp hx2 with h | hx2'
        · exact h
        rcases List.mem_cons.mp hy1 with h | hy1'
        · exact h.symm
        have hle1 : pairLe x y := (List.sorted_cons.mp hs₁).1 y hy1'
        have hle2 : pairLe y x := (List.sorted_cons.mp hs₂).1 x hx2'
        have hfst : x.1 = y.1 := pairLe_antisymm_fst hle1 hle2
        exact absurd (List.mem_map.mpr ⟨y, hy1', hfst.symm⟩)
          (List.nodup_cons.mp hn).1
      subst hxy
      have := ih ys hp.cons_inv (List.sorted_cons.mp hs₁).2
        (List.sorted_cons.mp hs₂).2 (List.nodup_cons.mp hn).2
      rw [this]

lemma string_append_left_cancel {w u v : String} (h : w ++ u = w ++ v) :
    u = v := by
  have hd : w.data ++ u.data = w.data ++ v.data := by
    rw [← String.data_append, ← String.data_append, h]
  exact String.ext (List.append_cancel_left hd)

lemma string_append_right_cancel {w u v : String} (h : u ++ w = v ++ w) :
    u = v := by
  have hd : u.data ++ w.data = v.data ++ w.data := by
    rw [← String.data_append, ← String.data_append, h]
  have hl : u.data.length = v.data.length := by
    have := congrArg List.length hd
    simp only [List.length_append] at this
    omega
  exact String.ext (List.append_inj hd hl).1

lemma joinSep_cons_of_ne_nil (sep x : String) {r : List String}
    (h : r ≠ []) : joinSep sep (x :: r) = x ++ sep ++ joinSep sep r := by
  cases r with
  | nil => exact absurd rfl h
  | cons y ys => rfl

lemma joinSep_ne_at (sep : String) {s₁ s₂ : String} (h : s₁ ≠ s₂) :
    ∀ X Y, joinSep sep (X ++ s₁ :: Y) ≠ joinSep sep (X ++ s₂ :: Y) := by
  intro X
  induction X with
  | nil =>
    intro Y
    cases Y with
    | nil => simpa [joinSep] using h
    | cons y ys =>
      intro he
      rw [List.nil_append, List.nil_append,
        joinSep_cons_of_ne_nil sep s₁ (by simp),
        joinSep_cons_of_ne_nil sep s₂ (by simp)] at he
      exact h (string_append_right_cancel (string_append_right_cancel he))
  | cons x xs ih =>
    intro Y he
    rw [List.cons_append, List.cons_append,
      joinSep_cons_of_ne_nil sep x (by simp),
      joinSep_cons_of_ne_nil sep x (by simp)] at he
    exact ih Y (string_append_left_cancel (string_append_left_cancel
      ((String.append_assoc x sep _) ▸ (String.append_assoc x sep _) ▸ he)))

lemma orderedInsert_map_keyfix (f : String × CacheValue → String × CacheValue)
    (hf : ∀ p, (f p).1 = p.1) (a : String × CacheValue) :
    ∀ s, List.orderedInsert pairLe (f a) (s.map f) =
      (List.orderedInsert pairLe a s).map f := by
  intro s
  induction s with
  | nil => rfl
  | cons b bs ih =>
    simp only [List.map_cons, List.orderedInsert]
    have hiff : pairLe (f a) (f b) ↔ pairLe a b := by
      unfold pairLe
      rw [hf a, hf b]
    by_cases h : pairLe a b
    · rw [if_pos (hiff.mpr h), if_pos h, List.map_cons, List.map_cons]
    · rw [if_neg (fun hh => h (hiff.mp hh)), if_neg h, List.map_cons, ih]

lemma insertionSort_map_keyfix (f : String × CacheValue → String × CacheValue)
    (hf : ∀ p, (f p).1 = p.1) :
    ∀ l, List.insertionSort pairLe (l.map f) =
      (List.insertionSort pairLe l).map f := by
  intro l
  induction l with
  | nil => rfl
  | cons a l ih =>
    simp only [List.map_cons, List.insertionSort, ih,
      orderedInsert_map_keyfix f hf]

/-- C9 (counterexample): path generation is not injective in a single
parameter value: the Python value `None` and the string `"none"`
normalize identically, so changing a parameter from `None` to `"none"`
yields the same cache path — two distinct queries alias. -/
theorem c9_counterexample :
    generate_cache_path "twelvedata" [("exchange", none)] "csv" =
      generate_cache_path "twelvedata" [("exchange", some "none")] "csv" ∧
    (none : CacheValue) ≠ some "none" := by
  exact ⟨rfl, by decide⟩

/-- C9 (amended): the cache path is deterministic — two calls with the
same prefix and the same parameter mapping (the same key-value pairs in
any order, keys distinct) produce the same path — and changing the
value of one parameter produces a different path whenever the
normalized safe token of the value changes.  (Values whose tokens
coincide, such as `None` versus the string `"none"` or strings
differing only in `/` versus `.`, alias; hence the token condition.) -/
theorem c9_cache_path_keying :
    (∀ (pre ext : String) (parts₁ parts₂ : List (String × CacheValue)),
      parts₁.Perm parts₂ → (parts₁.map Prod.fst).Nodup →
      generate_cache_path pre parts₁ ext =
        generate_cache_path pre parts₂ ext) ∧
    (∀ (pre ext k : String) (parts : List (String × CacheValue))
        (v v' : CacheValue),
      (parts.map Prod.fst).Nodup → (k, v) ∈ parts →
      safeToken (normValue v) ≠ safeToken (normValue v') →
      generate_cache_path pre parts ext ≠
        generate_cache_path pre (setParamValue parts k v') ext) := by
  constructor
  · intro pre ext parts₁ parts₂ hp hn
    have hsorted : List.insertionSort pairLe parts₁ =
        List.insertionSort pairLe parts₂ :=
      sorted_perm_eq _ _
        ((List.perm_insertionSort pairLe parts₁).trans
          (hp.trans (List.perm_insertionSort pairLe parts₂).symm))
        (List.sorted_insertionSort pairLe parts₁)
        (List.sorted_insertionSort pairLe parts₂)
        ((((List.perm_insertionSort pairLe parts₁).map Prod.fst).nodup_iff).mpr
          hn)
    unfold generate_cache_path
    rw [hsorted]
  · intro pre ext k parts v v' hn hmem hdiff
    have hf : ∀ p : String × CacheValue,
        ((fun p : String × CacheValue =>
          if p.1 = k then (k, v') else p) p).1 = p.1 := by
      intro p
      by_cases h : p.1 = k
      · simp [h]
      · simp [h]
    have hsort : List.insertionSort pairLe (setParamValue parts k v') =
        (List.insertionSort pairLe parts).map
          (fun p => if p.1 = k then (k, v') else p) :=
      insertionSort_map_keyfix _ hf parts
    obtain ⟨l₁, l₂, hsplit⟩ := List.append_of_mem
      (((List.perm_insertionSort pairLe parts).mem_iff).mpr hmem)
    have hnods : ((List.insertionSort pairLe parts).map Prod.fst).Nodup :=
      (((List.perm_insertionSort pairLe parts).map Prod.fst).nodup_iff).mpr hn
    rw [hsplit, List.map_append, List.map_cons] at hnods
    have hknotin := (List.nodup_cons.mp (List.nodup_middle.mp hnods)).1
    rw [List.mem_append] at hknotin
    push_neg at hknotin
    have hl₁ : l₁.map (fun p => if p.1 = k then (k, v') else p) = l₁ :=
      (List.map_congr_left (fun p hp => by
        have hpk : p.1 ≠ k := fun hpk =>
          hknotin.1 (List.mem_map.mpr ⟨p, hp, hpk⟩)
        simp [hpk])).trans (List.map_id l₁)
    have hl₂ : l₂.map (fun p => if p.1 = k then (k, v') else p) = l₂ :=
      (List.map_congr_left (fun p hp => by
        have hpk : p.1 ≠ k := fun hpk =>
          hknotin.2 (List.mem_map.mpr ⟨p, hp, hpk⟩)
        simp [hpk])).trans (List.map_id l₂)
    have hseg : safeToken k ++ "-" ++ safeToken (normValue v) ≠
        safeToken k ++ "-" ++ safeToken (normValue v') :=
      fun hh => hdiff (string_append_left_cancel hh)
    intro he
    unfold generate_cache_path at he
    rw [hsort, hsplit] at he
    simp only [List.map_append, List.map_cons, hl₁, hl₂, if_pos rfl] at he
    rw [if_neg (by simp), if_neg (by simp)] at he
    have h2 := string_append_right_cancel (string_append_right_cancel he)
    have h3 := string_append_left_cancel h2
    exact joinSep_ne_at "__" hseg _ _ h3

theorem c9_cache_path_keying_witness :
    generate_cache_path "twelvedata" [("interval", some "1day")] "csv" ≠
      generate_cache_path "twelvedata"
        (setParamValue [("interval", some "1day")] "interval"
          (some "1week")) "csv" :=
  c9_cache_path_keying.2 "twelvedata" "csv" "interval"
    [("interval", some "1day")] (some "1day") (some "1week")
    (by decide) (by decide) (by decide)
